import Mathlib

/-!
Shallow embedding of the `xitren::containers::circular_buffer<T, Size>` ring
buffer (header `include/xitren/circular_buffer.hpp`; the `loveka` copy is
identical).  The C++ object holds a backing array `data_` of `Size` slots, a
monotonically increasing write cursor `tail_` and an occupancy counter
`size_`; every physical access goes through `data(i) = data_[i % Size]`.
We model the backing array as a `List α` (length `Cap` in every real buffer),
`size_t` cursors as `Nat`, and reads with `List.getD _ default`
(the C++ array access `data_[i % Size]` is always in bounds when the list has
length `Cap`, so the default never matters in that case).
-/

namespace Xitren

/-- State of `circular_buffer<T, Size>`: backing storage, write cursor `tail_`,
occupancy `size_`. -/
structure circular_buffer (α : Type) (Cap : Nat) where
  data_ : List α
  tail_ : Nat
  size_ : Nat
deriving DecidableEq, Repr

namespace circular_buffer

variable {α : Type} {Cap : Nat}

/-- Construction: default-constructed buffer has `tail_ = size_ = 0`; `init`
is the (arbitrary, possibly externally written) content of the backing array. -/
def mkInit (init : List α) : circular_buffer α Cap :=
  ⟨init, 0, 0⟩

/-- C++ `head()` is `tail_ - size_` (unsigned). -/
def head (b : circular_buffer α Cap) : Nat :=
  b.tail_ - b.size_

/-- C++ `size()`. -/
def size (b : circular_buffer α Cap) : Nat :=
  b.size_

/-- C++ `capacity()`. -/
def capacity (_ : circular_buffer α Cap) : Nat :=
  Cap

/-- C++ `empty()` is `size_ == 0`. -/
def isEmpty (b : circular_buffer α Cap) : Bool :=
  b.size_ == 0

/-- C++ `full()` is `size_ >= Size`. -/
def full (b : circular_buffer α Cap) : Bool :=
  decide (b.size_ ≥ Cap)

/-- C++ `clear()`: `size_ = tail_ = 0`, storage untouched. -/
def clear (b : circular_buffer α Cap) : circular_buffer α Cap :=
  { b with tail_ := 0, size_ := 0 }

/-- C++ private `data(index)` read: `data_[index % Size]`. -/
def dataRead [Inhabited α] (b : circular_buffer α Cap) (i : Nat) : α :=
  b.data_.getD (i % Cap) default

/-- C++ `push(item)`: `data(tail_++) = item; ++size_; size_ = min(size_, Size);`. -/
def push (b : circular_buffer α Cap) (v : α) : circular_buffer α Cap :=
  { data_ := b.data_.set (b.tail_ % Cap) v
    tail_ := b.tail_ + 1
    size_ := min (b.size_ + 1) Cap }

/-- C++ `pop()`: `size_ -= 1 && !empty();` i.e. decrement by one iff nonempty. -/
def pop (b : circular_buffer α Cap) : circular_buffer α Cap :=
  { b with size_ := b.size_ - (if b.size_ = 0 then 0 else 1) }

/-- C++ `operator[](index)`: `data(head() + index)`, unchecked. -/
def get [Inhabited α] (b : circular_buffer α Cap) (i : Nat) : α :=
  b.dataRead (b.head + i)

/-- C++ `front()`: `data(head())`. -/
def front [Inhabited α] (b : circular_buffer α Cap) : α :=
  b.dataRead b.head

/-- Iterator position of `begin()` (iterators carry a logical position `pos_`;
`begin()` is position 0). -/
def beginPos (_ : circular_buffer α Cap) : Nat :=
  0

/-- Iterator position of `end()` (position `size_`). -/
def endPos (b : circular_buffer α Cap) : Nat :=
  b.size_

/-- The sequence produced by iterating from `begin()` to `end()` and
dereferencing: positions `0 .. size_-1`, value at position `p` is `(*buf)[p]`. -/
def toList [Inhabited α] (b : circular_buffer α Cap) : List α :=
  (List.range b.size_).map b.get

/-- C++ private `size_circle_end()`:
`min(size_, ((head() / Size) + 1) * Size - head())`. -/
def size_circle_end (b : circular_buffer α Cap) : Nat :=
  min b.size_ ((b.head / Cap + 1) * Cap - b.head)

/-- Iterator position of `mend()`: `iterator{this, size_circle_end()}`. -/
def mendPos (b : circular_buffer α Cap) : Nat :=
  b.size_circle_end

/-- C++ `update_head(head_next)`: advance `tail_` and `size_` by the forward
wrap distance from the physical tail to `head_next % Size`, then clamp
`size_` to `Size`. -/
def update_head (b : circular_buffer α Cap) (head_next : Nat) : circular_buffer α Cap :=
  let tail := b.tail_ % Cap
  let hn := head_next % Cap
  let inc := if tail > hn then Cap - tail + hn else hn - tail
  { b with size_ := min (b.size_ + inc) Cap, tail_ := b.tail_ + inc }

end circular_buffer

open circular_buffer

/-- C++ `operator<<(buffer, in_data)`: pushes each element of the sequence in
iteration order. -/
def shiftIn [Inhabited α] (b : circular_buffer α Cap) (xs : List α) : circular_buffer α Cap :=
  xs.foldl push b

/-- Loop body of C++ `operator>>(buffer, size)`: iterator starts at `begin()`
(position `pos`), loop runs while `pos < n`, calling `buffer.pop()` each
iteration. -/
def shiftOutCountAux (b : circular_buffer α Cap) (pos n : Nat) : circular_buffer α Cap :=
  if pos < n then shiftOutCountAux b.pop (pos + 1) n else b
termination_by n - pos

/-- C++ `operator>>(buffer, size)` for an integral count. -/
def shiftOutCount (b : circular_buffer α Cap) (n : Nat) : circular_buffer α Cap :=
  shiftOutCountAux b 0 n

/-- Drain loop of C++ `operator>>(buffer, out_data)`: for each destination
slot, `item = buffer.front(); buffer.pop();`.  Returns the final buffer and
the values written into the destination. -/
def drainAux [Inhabited α] (b : circular_buffer α Cap) : Nat → circular_buffer α Cap × List α
  | 0 => (b, [])
  | n + 1 =>
    let item := b.front
    let r := drainAux b.pop n
    (r.1, item :: r.2)

/-- C++ `operator>>(buffer, out_data)` for a sized output container: if
`buffer.size() < out_data.size()` return with no mutation, else overwrite
every destination element with `front()` and pop it. -/
def shiftOutArr [Inhabited α] (b : circular_buffer α Cap) (out : List α) :
    circular_buffer α Cap × List α :=
  if b.size_ < out.length then (b, out) else drainAux b out.length

/-- C++ `operator==(buffer, in_data)`: `bool res;` (UNINITIALIZED in the
source — modelled by the explicit parameter `res`), then for each sequence
element `res = res & (item == *(iter++))` with `iter` starting at `begin()`. -/
def beqArr [Inhabited α] [BEq α] (b : circular_buffer α Cap) (xs : List α) (res : Bool) : Bool :=
  (xs.foldl (fun acc x => (acc.1 && (x == b.get acc.2), acc.2 + 1)) (res, 0)).1

/-- Specification-side definition for claim C9: the state reached by calling
`pop()` exactly `n` times in a row. -/
def popN (b : circular_buffer α Cap) : Nat → circular_buffer α Cap
  | 0 => b
  | n + 1 => popN b.pop n

/-- Operations a client can perform on a buffer, for the reachable-state
invariant (claim C8). -/
inductive Op (α : Type) where
  | push (v : α)
  | pop
  | clear
  | update_head (p : Nat)
  | shiftIn (xs : List α)
  | shiftOutCount (n : Nat)
  | shiftOutArr (out : List α)

/-- Apply one operation to a buffer (for `shiftOutArr`, keep the buffer
component). -/
def applyOp [Inhabited α] (b : circular_buffer α Cap) : Op α → circular_buffer α Cap
  | .push v => b.push v
  | .pop => b.pop
  | .clear => b.clear
  | .update_head p => b.update_head p
  | .shiftIn xs => shiftIn b xs
  | .shiftOutCount n => shiftOutCount b n
  | .shiftOutArr out => (shiftOutArr b out).1

/-- Run a sequence of operations starting from a freshly constructed buffer
whose backing array holds `init`. -/
def runOps [Inhabited α] (Cap : Nat) (init : List α) (ops : List (Op α)) :
    circular_buffer α Cap :=
  ops.foldl applyOp (mkInit init)

section Lemmas

variable {α : Type} {Cap : Nat}

/-- Adding a positive amount smaller than the modulus changes the residue. -/
theorem mod_add_ne {a d : Nat} (h1 : 0 < d) (h2 : d < Cap) :
    (a + d) % Cap ≠ a % Cap := by
  intro h
  have hdvd : Cap ∣ a + d - a := (Nat.modEq_iff_dvd' (Nat.le_add_right a d)).mp h.symm
  have hd : a + d - a = d := by omega
  rw [hd] at hdvd
  exact absurd (Nat.le_of_dvd h1 hdvd) (by omega)

theorem tail_push (b : circular_buffer α Cap) (v : α) : (b.push v).tail_ = b.tail_ + 1 := rfl

theorem size_push (b : circular_buffer α Cap) (v : α) :
    (b.push v).size_ = min (b.size_ + 1) Cap := rfl

theorem data_push (b : circular_buffer α Cap) (v : α) :
    (b.push v).data_ = b.data_.set (b.tail_ % Cap) v := rfl

theorem length_data_push (b : circular_buffer α Cap) (v : α) :
    (b.push v).data_.length = b.data_.length := by
  simp [data_push]

theorem tail_pop (b : circular_buffer α Cap) : b.pop.tail_ = b.tail_ := rfl

theorem data_pop (b : circular_buffer α Cap) : b.pop.data_ = b.data_ := rfl

theorem size_pop (b : circular_buffer α Cap) : b.pop.size_ = b.size_ - 1 := by
  simp only [pop]
  split <;> omega

theorem pop_of_empty {b : circular_buffer α Cap} (h : b.size_ = 0) : b.pop = b := by
  cases b with
  | mk d t s => simp_all [pop]

theorem popN_succ (b : circular_buffer α Cap) (n : Nat) : popN b (n + 1) = popN b.pop n := rfl

theorem size_popN (b : circular_buffer α Cap) (n : Nat) : (popN b n).size_ = b.size_ - n := by
  induction n generalizing b with
  | zero => rfl
  | succ n ih => rw [popN_succ, ih, size_pop]; omega

theorem tail_popN (b : circular_buffer α Cap) (n : Nat) : (popN b n).tail_ = b.tail_ := by
  induction n generalizing b with
  | zero => rfl
  | succ n ih => rw [popN_succ, ih, tail_pop]

theorem data_popN (b : circular_buffer α Cap) (n : Nat) : (popN b n).data_ = b.data_ := by
  induction n generalizing b with
  | zero => rfl
  | succ n ih => rw [popN_succ, ih, data_pop]

theorem popN_of_empty {b : circular_buffer α Cap} (h : b.size_ = 0) (n : Nat) :
    popN b n = b := by
  induction n with
  | zero => rfl
  | succ n ih => rw [popN_succ, pop_of_empty h]; exact ih

theorem shiftIn_nil [Inhabited α] (b : circular_buffer α Cap) : shiftIn b [] = b := rfl

theorem shiftIn_cons [Inhabited α] (b : circular_buffer α Cap) (x : α) (xs : List α) :
    shiftIn b (x :: xs) = shiftIn (b.push x) xs := rfl

theorem tail_shiftIn [Inhabited α] (xs : List α) (b : circular_buffer α Cap) :
    (shiftIn b xs).tail_ = b.tail_ + xs.length := by
  induction xs generalizing b with
  | nil => simp [shiftIn_nil]
  | cons x xs ih => rw [shiftIn_cons, ih, tail_push]; simp; omega

theorem length_data_shiftIn [Inhabited α] (xs : List α) (b : circular_buffer α Cap) :
    (shiftIn b xs).data_.length = b.data_.length := by
  induction xs generalizing b with
  | nil => rfl
  | cons x xs ih => rw [shiftIn_cons, ih, length_data_push]

theorem size_shiftIn [Inhabited α] (xs : List α) (b : circular_buffer α Cap)
    (hb : b.size_ ≤ Cap) :
    (shiftIn b xs).size_ = min (b.size_ + xs.length) Cap := by
  induction xs generalizing b with
  | nil => simp [shiftIn_nil]; omega
  | cons x xs ih =>
    rw [shiftIn_cons, ih (b.push x) (by rw [size_push]; omega), size_push]
    simp only [List.length_cons]
    omega

theorem dataRead_pop [Inhabited α] (b : circular_buffer α Cap) (i : Nat) :
    b.pop.dataRead i = b.dataRead i := rfl

theorem dataRead_push_self [Inhabited α] {b : circular_buffer α Cap}
    (hCap : 0 < Cap) (hlen : b.data_.length = Cap) (v : α) :
    (b.push v).dataRead b.tail_ = v := by
  have hlt : b.tail_ % Cap < b.data_.length := by rw [hlen]; exact Nat.mod_lt _ hCap
  simp [dataRead, data_push, List.getElem?_set_self hlt]

theorem dataRead_push_ne [Inhabited α] {b : circular_buffer α Cap} {q : Nat}
    (h : q % Cap ≠ b.tail_ % Cap) (v : α) :
    (b.push v).dataRead q = b.dataRead q := by
  simp [dataRead, data_push, List.getElem?_set_ne (Ne.symm h)]

theorem dataRead_shiftIn_skip [Inhabited α] {q : Nat} :
    ∀ (xs : List α) (b : circular_buffer α Cap),
      (∀ k < xs.length, (b.tail_ + k) % Cap ≠ q % Cap) →
      (shiftIn b xs).dataRead q = b.dataRead q := by
  intro xs
  induction xs with
  | nil => intro b _; rfl
  | cons x xs ih =>
    intro b h
    rw [shiftIn_cons, ih (b.push x) ?later, dataRead_push_ne ?now]
    case now =>
      have := h 0 (by simp)
      simpa using (Ne.symm this)
    case later =>
      intro k hk
      have := h (k + 1) (by simp; omega)
      rw [tail_push]
      simpa [Nat.add_assoc, Nat.add_comm 1 k] using this

theorem dataRead_shiftIn_get [Inhabited α] (hCap : 0 < Cap) :
    ∀ (xs : List α) (b : circular_buffer α Cap) (i : Nat),
      b.data_.length = Cap → i < xs.length → xs.length ≤ i + Cap →
      (shiftIn b xs).dataRead (b.tail_ + i) = xs.getD i default := by
  intro xs
  induction xs with
  | nil => intro b i _ hi _; simp at hi
  | cons x xs ih =>
    intro b i hlen hi hlast
    match i with
    | 0 =>
      rw [shiftIn_cons]
      have h0 : b.tail_ + 0 = b.tail_ := rfl
      rw [h0]
      have hskip : (shiftIn (b.push x) xs).dataRead b.tail_ = (b.push x).dataRead b.tail_ := by
        apply dataRead_shiftIn_skip
        intro k hk
        rw [tail_push]
        have h1 : b.tail_ + 1 + k = b.tail_ + (1 + k) := by omega
        rw [h1]
        apply mod_add_ne (by omega)
        simp at hlast
        omega
      rw [hskip]
      simpa using dataRead_push_self hCap hlen x
    | i + 1 =>
      rw [shiftIn_cons]
      have h1 : b.tail_ + (i + 1) = (b.push x).tail_ + i := by rw [tail_push]; omega
      rw [h1, ih (b.push x) i (by rw [length_data_push]; exact hlen)
        (by simpa using hi) (by simp at hlast; omega)]
      simp

theorem length_toList [Inhabited α] (b : circular_buffer α Cap) :
    (toList b).length = b.size_ := by
  simp [toList]

theorem front_eq_get_zero [Inhabited α] (b : circular_buffer α Cap) : b.front = b.get 0 := by
  simp [front, circular_buffer.get]

theorem toList_shiftIn_mkInit [Inhabited α] (hCap : 0 < Cap) (init xs : List α)
    (hlen : init.length = Cap) :
    toList (shiftIn (mkInit init) xs : circular_buffer α Cap)
      = xs.drop (xs.length - min xs.length Cap) := by
  have htail : (shiftIn (mkInit init) xs : circular_buffer α Cap).tail_ = xs.length := by
    rw [tail_shiftIn]; simp [mkInit]
  have hsize : (shiftIn (mkInit init) xs : circular_buffer α Cap).size_ = min xs.length Cap := by
    rw [size_shiftIn xs _ (by simp [mkInit])]; simp [mkInit]
  apply List.ext_getElem
  · simp [toList, hsize]
    omega
  · intro i h1 h2
    have hi : i < min xs.length Cap := by
      simpa [toList, hsize] using h1
    have hlt : xs.length - min xs.length Cap + i < xs.length := by omega
    simp only [toList, List.getElem_map, List.getElem_range, List.getElem_drop]
    have hhead : (shiftIn (mkInit init) xs : circular_buffer α Cap).head
        = xs.length - min xs.length Cap := by
      simp [head, htail, hsize]
    show (shiftIn (mkInit init) xs : circular_buffer α Cap).dataRead _ = _
    rw [hhead]
    have hread := dataRead_shiftIn_get hCap xs (mkInit init)
      (xs.length - min xs.length Cap + i) (by simpa [mkInit] using hlen) hlt (by omega)
    have h0 : (mkInit init : circular_buffer α Cap).tail_ = 0 := rfl
    rw [h0, Nat.zero_add] at hread
    rw [hread]
    simp [List.getD_eq_getElem?_getD, List.getElem?_eq_getElem hlt]

theorem toList_pop [Inhabited α] (b : circular_buffer α Cap) (hinv : b.size_ ≤ b.tail_) :
    toList b.pop = (toList b).drop 1 := by
  rcases Nat.eq_zero_or_pos b.size_ with h0 | hpos
  · simp [toList, pop, h0]
  · apply List.ext_getElem
    · simp [toList, size_pop]
    · intro i h1 h2
      simp only [toList, List.getElem_map, List.getElem_range, List.getElem_drop]
      show b.pop.dataRead (b.pop.head + i) = b.dataRead (b.head + (1 + i))
      rw [dataRead_pop]
      have hidx : b.pop.head + i = b.head + (1 + i) := by
        simp only [head, size_pop, tail_pop]
        omega
      rw [hidx]

theorem toList_eq_cons [Inhabited α] (b : circular_buffer α Cap) (h : 0 < b.size_) :
    toList b = b.get 0 :: (toList b).drop 1 := by
  obtain ⟨m, hm⟩ : ∃ m, b.size_ = m + 1 := ⟨b.size_ - 1, by omega⟩
  simp [toList, hm, List.range_succ_eq_map]

theorem toList_push_full [Inhabited α] {b : circular_buffer α Cap} (hCap : 0 < Cap)
    (hlen : b.data_.length = Cap) (hinv : b.size_ ≤ b.tail_) (hfull : b.size_ = Cap) (v : α) :
    toList (b.push v) = (toList b).drop 1 ++ [v] := by
  have htc : Cap ≤ b.tail_ := by omega
  have hsz : (b.push v).size_ = Cap := by rw [size_push]; omega
  have hh : b.head = b.tail_ - Cap := by simp [head, hfull]
  apply List.ext_getElem
  · simp [toList, hsz, hfull]
    omega
  · intro i h1 h2
    have hi : i < Cap := by simpa [toList, hsz] using h1
    simp only [toList, List.getElem_map, List.getElem_range]
    show (b.push v).dataRead ((b.push v).head + i) = _
    have hh2 : (b.push v).head = b.head + 1 := by
      simp only [head, size_push, tail_push]
      omega
    by_cases hc : i < Cap - 1
    · rw [List.getElem_append_left (by simp [toList, hfull]; omega)]
      simp only [List.getElem_drop, toList, List.getElem_map, List.getElem_range]
      show _ = b.dataRead (b.head + (1 + i))
      have hqt : b.tail_ = (b.head + (1 + i)) + (Cap - 1 - i) := by omega
      have hne : (b.head + (1 + i)) % Cap ≠ b.tail_ % Cap := by
        rw [hqt]
        exact (mod_add_ne (by omega) (by omega)).symm
      rw [hh2, show b.head + 1 + i = b.head + (1 + i) by omega, dataRead_push_ne hne v]
    · have hie : i = Cap - 1 := by omega
      have hidx : (b.push v).head + i = b.tail_ := by rw [hh2]; omega
      rw [hidx, dataRead_push_self hCap hlen v,
        List.getElem_append_right (by simp [toList, hfull]; omega)]
      simp [toList, hfull, hie]

theorem fst_drainAux [Inhabited α] :
    ∀ (n : Nat) (b : circular_buffer α Cap), (drainAux b n).1 = popN b n := by
  intro n
  induction n with
  | zero => intro b; rfl
  | succ n ih => intro b; simp only [drainAux]; exact ih b.pop

theorem drainAux_eq [Inhabited α] :
    ∀ (n : Nat) (b : circular_buffer α Cap), n ≤ b.size_ → b.size_ ≤ b.tail_ →
      drainAux b n = (popN b n, (toList b).take n) := by
  intro n
  induction n with
  | zero => intro b _ _; simp [drainAux, popN]
  | succ n ih =>
    intro b hn hinv
    have hpos : 0 < b.size_ := by omega
    simp only [drainAux]
    rw [ih b.pop (by rw [size_pop]; omega) (by rw [size_pop, tail_pop]; omega)]
    rw [toList_pop b hinv]
    have hcons := toList_eq_cons b hpos
    cases htl : toList b with
    | nil => rw [htl] at hcons; exact absurd hcons (by simp)
    | cons y ys =>
      rw [htl] at hcons
      have hy : y = b.get 0 := by
        have := List.head_eq_of_cons_eq hcons.symm
        exact this.symm
      have hys : ys = (y :: ys).drop 1 := rfl
      rw [front_eq_get_zero, ← hy, List.take_succ_cons, ← hys]
      rfl

theorem shiftOutCountAux_eq (k : Nat) :
    ∀ (b : circular_buffer α Cap) (pos n : Nat), n - pos = k →
      shiftOutCountAux b pos n = popN b k := by
  induction k with
  | zero =>
    intro b pos n hk
    rw [shiftOutCountAux]
    have h : ¬ pos < n := by omega
    simp [h, popN]
  | succ k ih =>
    intro b pos n hk
    rw [shiftOutCountAux]
    have h : pos < n := by omega
    rw [if_pos h, ih b.pop (pos + 1) n (by omega)]
    rfl

theorem shiftOutCount_eq_popN (b : circular_buffer α Cap) (n : Nat) :
    shiftOutCount b n = popN b n := by
  exact shiftOutCountAux_eq n b 0 n rfl

theorem uh_inc_eq (hCap : 0 < Cap) (t hn : Nat) (ht : t < Cap) (hhn : hn < Cap) :
    (if t > hn then Cap - t + hn else hn - t) = (hn + Cap - t) % Cap := by
  rcases Nat.lt_or_ge hn t with h | h
  · rw [if_pos h, Nat.mod_eq_of_lt (by omega)]
    omega
  · rw [if_neg (by omega)]
    have h1 : hn + Cap - t = (hn - t) + Cap := by omega
    rw [h1, Nat.add_mod_right, Nat.mod_eq_of_lt (by omega)]

theorem update_head_fields (hCap : 0 < Cap) (b : circular_buffer α Cap) (p : Nat) :
    (b.update_head p).tail_ = b.tail_ + (p % Cap + Cap - b.tail_ % Cap) % Cap ∧
    (b.update_head p).size_ = min (b.size_ + (p % Cap + Cap - b.tail_ % Cap) % Cap) Cap ∧
    (b.update_head p).data_ = b.data_ := by
  have ht : b.tail_ % Cap < Cap := Nat.mod_lt _ hCap
  have hhn : p % Cap < Cap := Nat.mod_lt _ hCap
  have key := uh_inc_eq hCap (b.tail_ % Cap) (p % Cap) ht hhn
  refine ⟨?_, ?_, rfl⟩ <;> simp only [update_head] <;> rw [key]

theorem update_head_tail_mod (hCap : 0 < Cap) (b : circular_buffer α Cap) (p : Nat) :
    (b.update_head p).tail_ % Cap = p % Cap := by
  have ht : b.tail_ % Cap < Cap := Nat.mod_lt _ hCap
  have hhn : p % Cap < Cap := Nat.mod_lt _ hCap
  simp only [update_head]
  rcases Nat.lt_or_ge (p % Cap) (b.tail_ % Cap) with h | h
  · rw [if_pos h, Nat.add_mod]
    rw [Nat.mod_eq_of_lt (show Cap - b.tail_ % Cap + p % Cap < Cap by omega)]
    rw [show b.tail_ % Cap + (Cap - b.tail_ % Cap + p % Cap) = Cap + p % Cap by omega]
    rw [Nat.add_mod_left]
    exact Nat.mod_eq_of_lt hhn
  · rw [if_neg (by omega), Nat.add_mod]
    rw [Nat.mod_eq_of_lt (show p % Cap - b.tail_ % Cap < Cap by omega)]
    rw [show b.tail_ % Cap + (p % Cap - b.tail_ % Cap) = p % Cap by omega]
    exact Nat.mod_eq_of_lt hhn

theorem toList_head_zero [Inhabited α] (b : circular_buffer α Cap)
    (hlen : b.data_.length = Cap) (heq : b.tail_ = b.size_) (hs : b.size_ ≤ Cap) :
    toList b = b.data_.take b.size_ := by
  apply List.ext_getElem
  · simp [toList, hlen]
    omega
  · intro i h1 h2
    have hi : i < b.size_ := by simpa [toList] using h1
    simp only [toList, List.getElem_map, List.getElem_range, List.getElem_take]
    show b.dataRead (b.head + i) = _
    have hh : b.head = 0 := by simp [head, heq]
    have hilt : i < b.data_.length := by omega
    rw [hh, Nat.zero_add]
    simp [dataRead, Nat.mod_eq_of_lt (show i < Cap by omega),
      List.getD_eq_getElem?_getD, List.getElem?_eq_getElem hilt]

theorem div_succ_mul_sub (hCap : 0 < Cap) (h : Nat) :
    (h / Cap + 1) * Cap - h = Cap - h % Cap := by
  have h1 : Cap * (h / Cap) + h % Cap = h := Nat.div_add_mod h Cap
  have h2 : (h / Cap + 1) * Cap = Cap * (h / Cap) + Cap := by ring
  have h3 : h % Cap < Cap := Nat.mod_lt _ hCap
  rw [h2]
  omega

theorem size_applyOp_le [Inhabited α] (b : circular_buffer α Cap) (op : Op α)
    (hb : b.size_ ≤ Cap) : (applyOp b op).size_ ≤ Cap := by
  cases op with
  | push v => simp only [applyOp, size_push]; omega
  | pop => simp only [applyOp, size_pop]; omega
  | clear => simp [applyOp, circular_buffer.clear]
  | update_head p => simp only [applyOp, update_head]; omega
  | shiftIn xs => simp only [applyOp]; rw [size_shiftIn xs b hb]; omega
  | shiftOutCount n =>
    simp only [applyOp]
    rw [shiftOutCount_eq_popN, size_popN]
    omega
  | shiftOutArr out =>
    simp only [applyOp, shiftOutArr]
    split
    · exact hb
    · rw [fst_drainAux, size_popN]; omega

theorem size_foldl_applyOp_le [Inhabited α] (ops : List (Op α)) (b : circular_buffer α Cap)
    (hb : b.size_ ≤ Cap) : (ops.foldl applyOp b).size_ ≤ Cap := by
  induction ops generalizing b with
  | nil => exact hb
  | cons op ops ih => exact ih (applyOp b op) (size_applyOp_le b op hb)

theorem toList_popN [Inhabited α] :
    ∀ (n : Nat) (b : circular_buffer α Cap), b.size_ ≤ b.tail_ →
      toList (popN b n) = (toList b).drop n := by
  intro n
  induction n with
  | zero => intro b _; simp [popN]
  | succ n ih =>
    intro b hinv
    rw [popN_succ, ih b.pop (by rw [size_pop, tail_pop]; omega), toList_pop b hinv,
      List.drop_drop, Nat.add_comm 1 n]

theorem cb_ext {b1 b2 : circular_buffer α Cap} (hd : b1.data_ = b2.data_)
    (ht : b1.tail_ = b2.tail_) (hs : b1.size_ = b2.size_) : b1 = b2 := by
  cases b1
  cases b2
  simp_all

end Lemmas

section Claims

variable {α : Type} {Cap : Nat}

/-- C1: when the buffer is already full (`size() == Capacity`), `push v` writes
`v` into physical slot `tail mod Capacity`, advances `tail` by one, leaves
`size` clamped at `Capacity`, and silently discards the logically oldest
element (front-to-back iteration of the result is the old content minus its
first element, plus `v` at the back); moreover pushing `Capacity + 1`
elements `e0..eCap` into an empty buffer and iterating yields `e1..eCap`. -/
theorem c1_push_overwrites_oldest_when_full [Inhabited α] (hCap : 0 < Cap)
    (b : circular_buffer α Cap) (v : α)
    (hlen : b.data_.length = Cap) (hinv : b.size_ ≤ b.tail_) (hfull : b.size_ = Cap)
    (init es : List α) (hil : init.length = Cap) (hes : es.length = Cap + 1) :
    (b.push v).data_ = b.data_.set (b.tail_ % Cap) v ∧
    (b.push v).tail_ = b.tail_ + 1 ∧
    (b.push v).size_ = Cap ∧
    toList (b.push v) = (toList b).drop 1 ++ [v] ∧
    toList (shiftIn (mkInit init) es : circular_buffer α Cap) = es.drop 1 := by
  refine ⟨data_push b v, tail_push b v, by rw [size_push]; omega,
    toList_push_full hCap hlen hinv hfull v, ?_⟩
  rw [toList_shiftIn_mkInit hCap init es hil]
  have h1 : es.length - min es.length Cap = 1 := by omega
  rw [h1]

/-- Witness for C1 at `Capacity = 3`, buffer `⟨[9,9,9], 5, 3⟩` (full), pushed
value `42`, and the drop-one scenario with `es = [1,2,3,4]`. -/
theorem c1_witness :
    ((⟨[9, 9, 9], 5, 3⟩ : circular_buffer Nat 3).push 42).data_
        = ([9, 9, 9] : List Nat).set (5 % 3) 42 ∧
    ((⟨[9, 9, 9], 5, 3⟩ : circular_buffer Nat 3).push 42).tail_ = 5 + 1 ∧
    ((⟨[9, 9, 9], 5, 3⟩ : circular_buffer Nat 3).push 42).size_ = 3 ∧
    toList ((⟨[9, 9, 9], 5, 3⟩ : circular_buffer Nat 3).push 42)
        = (toList (⟨[9, 9, 9], 5, 3⟩ : circular_buffer Nat 3)).drop 1 ++ [42] ∧
    toList (shiftIn (mkInit [0, 0, 0]) [1, 2, 3, 4] : circular_buffer Nat 3)
        = ([1, 2, 3, 4] : List Nat).drop 1 :=
  c1_push_overwrites_oldest_when_full (by decide) ⟨[9, 9, 9], 5, 3⟩ 42 (by decide)
    (by decide) (by decide) [0, 0, 0] [1, 2, 3, 4] (by decide) (by decide)

/-- C3: `mend()` sits `min(size, Capacity - head % Capacity)` logical steps
after `begin()`, the length of the longest physically contiguous run of valid
elements before the wrap; with `Capacity = 10`, 8 valid elements starting at
physical offset 6, `mend() - begin()` is 4, not 8. -/
theorem c3_mend_first_contiguous_run (hCap : 0 < Cap) (b : circular_buffer α Cap) :
    b.mendPos - b.beginPos = min b.size_ (Cap - b.head % Cap) ∧
    ((⟨[0, 1, 2, 3, 4, 5, 6, 7, 8, 9], 14, 8⟩ : circular_buffer Nat 10).mendPos
        - (⟨[0, 1, 2, 3, 4, 5, 6, 7, 8, 9], 14, 8⟩ : circular_buffer Nat 10).beginPos = 4 ∧
      (⟨[0, 1, 2, 3, 4, 5, 6, 7, 8, 9], 14, 8⟩ : circular_buffer Nat 10).mendPos ≠ 8) := by
  refine ⟨?_, by decide, by decide⟩
  simp only [mendPos, beginPos, size_circle_end, Nat.sub_zero]
  rw [div_succ_mul_sub hCap]

/-- Witness for C3 at `Capacity = 10`, `tail = 14`, `size = 8` (head offset 6). -/
theorem c3_witness :
    (⟨[0, 1, 2, 3, 4, 5, 6, 7, 8, 9], 14, 8⟩ : circular_buffer Nat 10).mendPos
        - (⟨[0, 1, 2, 3, 4, 5, 6, 7, 8, 9], 14, 8⟩ : circular_buffer Nat 10).beginPos
      = min (⟨[0, 1, 2, 3, 4, 5, 6, 7, 8, 9], 14, 8⟩ : circular_buffer Nat 10).size_
          (10 - (⟨[0, 1, 2, 3, 4, 5, 6, 7, 8, 9], 14, 8⟩ : circular_buffer Nat 10).head % 10) :=
  (c3_mend_first_contiguous_run (by decide) ⟨[0, 1, 2, 3, 4, 5, 6, 7, 8, 9], 14, 8⟩).1

/-- C4: `pop()` touches neither storage nor `tail`; it decrements `size` by
exactly one when the buffer is nonempty, and on an empty buffer it is a
complete no-op leaving `size() == 0` (no underflow, no error). -/
theorem c4_pop_no_underflow (b : circular_buffer α Cap) :
    b.pop.data_ = b.data_ ∧ b.pop.tail_ = b.tail_ ∧
    (b.size_ ≠ 0 → b.pop.size_ + 1 = b.size_) ∧
    (b.size_ = 0 → b.pop = b ∧ b.pop.size_ = 0) := by
  refine ⟨rfl, rfl, ?_, ?_⟩
  · intro h
    rw [size_pop]
    omega
  · intro h
    exact ⟨pop_of_empty h, by rw [size_pop]; omega⟩

/-- Witness for C4: a nonempty buffer pops down by one; an empty buffer is
left untouched. -/
theorem c4_witness :
    (⟨[5], 1, 1⟩ : circular_buffer Nat 1).pop.size_ + 1 = 1 ∧
    (⟨[5], 1, 0⟩ : circular_buffer Nat 1).pop = ⟨[5], 1, 0⟩ :=
  ⟨(c4_pop_no_underflow ⟨[5], 1, 1⟩).2.2.1 (by decide),
    ((c4_pop_no_underflow ⟨[5], 1, 0⟩).2.2.2 (by decide)).1⟩

/-- C7: pushing `n ≤ Capacity` values into an empty buffer and iterating
yields exactly those values in push order, and popping all `n` leaves
`size() == 0`. -/
theorem c7_roundtrip [Inhabited α] (hCap : 0 < Cap) (init es : List α)
    (hil : init.length = Cap) (hn : es.length ≤ Cap) :
    toList (shiftIn (mkInit init) es : circular_buffer α Cap) = es ∧
    (popN (shiftIn (mkInit init) es : circular_buffer α Cap) es.length).size_ = 0 := by
  constructor
  · rw [toList_shiftIn_mkInit hCap init es hil]
    have h0 : es.length - min es.length Cap = 0 := by omega
    rw [h0, List.drop_zero]
  · rw [size_popN, size_shiftIn es _ (by simp [mkInit])]
    simp [mkInit]

/-- Witness for C7 at `Capacity = 8` with the five values of the repository
test (the ASCII digits one to five, 49..53). -/
theorem c7_witness :
    toList (shiftIn (mkInit [0, 0, 0, 0, 0, 0, 0, 0]) [49, 50, 51, 52, 53] :
        circular_buffer Nat 8) = [49, 50, 51, 52, 53] ∧
    (popN (shiftIn (mkInit [0, 0, 0, 0, 0, 0, 0, 0]) [49, 50, 51, 52, 53] :
        circular_buffer Nat 8) ([49, 50, 51, 52, 53] : List Nat).length).size_ = 0 :=
  c7_roundtrip (by decide) [0, 0, 0, 0, 0, 0, 0, 0] [49, 50, 51, 52, 53]
    (by decide) (by decide)

/-- C2: `update_head p` advances both `tail` and `size` by the forward
wrapping distance `d = (p mod Cap - tail mod Cap) mod Cap` (rendered over ℕ
as `(p % Cap + Cap - tail % Cap) % Cap`), with `d < Cap`, then clamps `size`
to `Cap`; on an empty `Capacity = 10` buffer with externally written backing
bytes `bs`, `update_head 4` gives `size() = 4` and the first four logical
elements are the first four backing bytes, and a subsequent `update_head 8`
advances `tail` by exactly 4 more, exposing the first eight bytes. -/
theorem c2_update_head_advances_by_wrap_distance [Inhabited α] (hCap : 0 < Cap)
    (b : circular_buffer α Cap) (p : Nat) (bs : List α) (hbs : bs.length = 10) :
    ((p % Cap + Cap - b.tail_ % Cap) % Cap < Cap ∧
      (b.update_head p).tail_ = b.tail_ + (p % Cap + Cap - b.tail_ % Cap) % Cap ∧
      (b.update_head p).size_ = min (b.size_ + (p % Cap + Cap - b.tail_ % Cap) % Cap) Cap ∧
      (b.update_head p).data_ = b.data_) ∧
    ((update_head (mkInit bs) 4 : circular_buffer α 10).size_ = 4 ∧
      toList (update_head (mkInit bs) 4 : circular_buffer α 10) = bs.take 4 ∧
      (update_head (update_head (mkInit bs) 4) 8 : circular_buffer α 10).tail_
          = (update_head (mkInit bs) 4 : circular_buffer α 10).tail_ + 4 ∧
      (update_head (update_head (mkInit bs) 4) 8 : circular_buffer α 10).size_ = 8 ∧
      toList (update_head (update_head (mkInit bs) 4) 8 : circular_buffer α 10)
          = bs.take 8) := by
  obtain ⟨hut, hus, hud⟩ := update_head_fields hCap b p
  refine ⟨⟨Nat.mod_lt _ hCap, hut, hus, hud⟩, ?_⟩
  have ht1 : (update_head (mkInit bs) 4 : circular_buffer α 10).tail_ = 4 := by
    simp [update_head, mkInit]
  have hs1 : (update_head (mkInit bs) 4 : circular_buffer α 10).size_ = 4 := by
    simp [update_head, mkInit]
  have hd1 : (update_head (mkInit bs) 4 : circular_buffer α 10).data_ = bs := rfl
  have hl1 : toList (update_head (mkInit bs) 4 : circular_buffer α 10) = bs.take 4 := by
    rw [toList_head_zero _ (by rw [hd1]; exact hbs) (by rw [ht1, hs1])
      (by rw [hs1]; omega), hd1, hs1]
  have ht2 : (update_head (update_head (mkInit bs) 4) 8 : circular_buffer α 10).tail_ = 8 := by
    simp [update_head, mkInit]
  have hs2 : (update_head (update_head (mkInit bs) 4) 8 : circular_buffer α 10).size_ = 8 := by
    simp [update_head, mkInit]
  have hd2 : (update_head (update_head (mkInit bs) 4) 8 : circular_buffer α 10).data_ = bs := rfl
  have hl2 : toList (update_head (update_head (mkInit bs) 4) 8 : circular_buffer α 10)
      = bs.take 8 := by
    rw [toList_head_zero _ (by rw [hd2]; exact hbs) (by rw [ht2, hs2])
      (by rw [hs2]; omega), hd2, hs2]
  exact ⟨hs1, hl1, by rw [ht2, ht1], hs2, hl2⟩

/-- Witness for C2 at `Capacity = 3`, buffer `⟨[0,0,0], 4, 1⟩`, argument `2`,
and backing bytes `[10..19]` for the DMA scenario. -/
theorem c2_witness :
    (((2 % 3 + 3 - (⟨[0, 0, 0], 4, 1⟩ : circular_buffer Nat 3).tail_ % 3) % 3 < 3 ∧
      ((⟨[0, 0, 0], 4, 1⟩ : circular_buffer Nat 3).update_head 2).tail_
          = (⟨[0, 0, 0], 4, 1⟩ : circular_buffer Nat 3).tail_
            + (2 % 3 + 3 - (⟨[0, 0, 0], 4, 1⟩ : circular_buffer Nat 3).tail_ % 3) % 3 ∧
      ((⟨[0, 0, 0], 4, 1⟩ : circular_buffer Nat 3).update_head 2).size_
          = min ((⟨[0, 0, 0], 4, 1⟩ : circular_buffer Nat 3).size_
            + (2 % 3 + 3 - (⟨[0, 0, 0], 4, 1⟩ : circular_buffer Nat 3).tail_ % 3) % 3) 3 ∧
      ((⟨[0, 0, 0], 4, 1⟩ : circular_buffer Nat 3).update_head 2).data_
          = (⟨[0, 0, 0], 4, 1⟩ : circular_buffer Nat 3).data_) ∧
    ((update_head (mkInit [10, 11, 12, 13, 14, 15, 16, 17, 18, 19]) 4 :
          circular_buffer Nat 10).size_ = 4 ∧
      toList (update_head (mkInit [10, 11, 12, 13, 14, 15, 16, 17, 18, 19]) 4 :
          circular_buffer Nat 10) = ([10, 11, 12, 13, 14, 15, 16, 17, 18, 19] : List Nat).take 4 ∧
      (update_head (update_head (mkInit [10, 11, 12, 13, 14, 15, 16, 17, 18, 19]) 4) 8 :
          circular_buffer Nat 10).tail_
          = (update_head (mkInit [10, 11, 12, 13, 14, 15, 16, 17, 18, 19]) 4 :
          circular_buffer Nat 10).tail_ + 4 ∧
      (update_head (update_head (mkInit [10, 11, 12, 13, 14, 15, 16, 17, 18, 19]) 4) 8 :
          circular_buffer Nat 10).size_ = 8 ∧
      toList (update_head (update_head (mkInit [10, 11, 12, 13, 14, 15, 16, 17, 18, 19]) 4) 8 :
          circular_buffer Nat 10)
          = ([10, 11, 12, 13, 14, 15, 16, 17, 18, 19] : List Nat).take 8)) :=
  c2_update_head_advances_by_wrap_distance (by decide) ⟨[0, 0, 0], 4, 1⟩ 2
    [10, 11, 12, 13, 14, 15, 16, 17, 18, 19] (by decide)

/-- C5: the sized-output drain `buffer >> seq` is all-or-nothing: when the
buffer holds at least `seq.length` elements it hands out exactly the
`seq.length` oldest elements in head-to-tail order and pops each of them
(the buffer ends as if popped `seq.length` times, its size reduced by
`seq.length`); when the buffer holds fewer, both buffer and destination are
left completely unchanged. -/
theorem c5_drain_all_or_nothing [Inhabited α] (b : circular_buffer α Cap) (out : List α) :
    (out.length ≤ b.size_ → b.size_ ≤ b.tail_ →
      shiftOutArr b out = (popN b out.length, (toList b).take out.length) ∧
      (shiftOutArr b out).1.size_ = b.size_ - out.length) ∧
    (b.size_ < out.length → shiftOutArr b out = (b, out)) := by
  constructor
  · intro hle hinv
    have hno : ¬ b.size_ < out.length := by omega
    have heq : shiftOutArr b out = drainAux b out.length := by simp [shiftOutArr, hno]
    rw [heq, drainAux_eq out.length b hle hinv]
    exact ⟨rfl, by simp [size_popN]⟩
  · intro hlt
    simp [shiftOutArr, hlt]

/-- Witness for C5: draining two elements out of a three-element buffer of
capacity 4 succeeds and pops both; asking for four elements is a no-op. -/
theorem c5_witness :
    (shiftOutArr (⟨[1, 2, 3, 7], 3, 3⟩ : circular_buffer Nat 4) [0, 0]
        = (popN (⟨[1, 2, 3, 7], 3, 3⟩ : circular_buffer Nat 4) 2,
          (toList (⟨[1, 2, 3, 7], 3, 3⟩ : circular_buffer Nat 4)).take 2) ∧
      (shiftOutArr (⟨[1, 2, 3, 7], 3, 3⟩ : circular_buffer Nat 4) [0, 0]).1.size_ = 3 - 2) ∧
    shiftOutArr (⟨[1, 2, 3, 7], 3, 3⟩ : circular_buffer Nat 4) [0, 0, 0, 0]
        = (⟨[1, 2, 3, 7], 3, 3⟩, [0, 0, 0, 0]) :=
  ⟨(c5_drain_all_or_nothing ⟨[1, 2, 3, 7], 3, 3⟩ [0, 0]).1 (by decide) (by decide),
    (c5_drain_all_or_nothing ⟨[1, 2, 3, 7], 3, 3⟩ [0, 0, 0, 0]).2 (by decide)⟩

/-- C6 (code bug evidence): the source of `operator==` reads an UNINITIALIZED
accumulator (`bool res;`) and never compares lengths, so it cannot realize
"true iff the logical content equals the sequence": on the buffer holding
`[1, 2]`, whichever value the uninitialized flag takes, the result is wrong —
with `res = true` it answers `true` against the strict prefix `[1]` although
the content differs, and with `res = false` it answers `false` against the
exactly equal sequence `[1, 2]`. -/
theorem c6_eq_operator_diverges :
    beqArr (⟨[1, 2, 7, 7], 2, 2⟩ : circular_buffer Nat 4) [1] true = true ∧
    toList (⟨[1, 2, 7, 7], 2, 2⟩ : circular_buffer Nat 4) ≠ [1] ∧
    beqArr (⟨[1, 2, 7, 7], 2, 2⟩ : circular_buffer Nat 4) [1, 2] false = false ∧
    toList (⟨[1, 2, 7, 7], 2, 2⟩ : circular_buffer Nat 4) = [1, 2] := by
  decide

/-- C8: from the empty initial state, `size()` never exceeds `Capacity` under
any sequence of `push`, `pop`, `clear`, `update_head`, `<<`, `>> n` and
`>> seq` operations. -/
theorem c8_size_never_exceeds_capacity [Inhabited α] (Cap : Nat) (init : List α)
    (ops : List (Op α)) : (runOps Cap init ops).size_ ≤ Cap :=
  size_foldl_applyOp_le ops (mkInit init) (Nat.zero_le Cap)

/-- C9: `buffer >> n` performs exactly `n` individual `pop()` calls, so it
ends in the very state of `n` consecutive pops; those pops discard the `n`
logically oldest elements, and once the buffer is empty the remaining
iterations are no-ops. -/
theorem c9_shift_out_count_pops_n_times [Inhabited α] (b : circular_buffer α Cap) (n : Nat) :
    shiftOutCount b n = popN b n ∧
    (b.size_ ≤ b.tail_ → toList (popN b n) = (toList b).drop n) ∧
    (b.size_ = 0 → popN b n = b) :=
  ⟨shiftOutCount_eq_popN b n, fun hinv => toList_popN n b hinv, fun h => popN_of_empty h n⟩

/-- Witness for C9: draining 3 from a two-element buffer of capacity 4, and
the empty-buffer no-op at the emptied state. -/
theorem c9_witness :
    (shiftOutCount (⟨[1, 2, 7, 7], 2, 2⟩ : circular_buffer Nat 4) 3
        = popN (⟨[1, 2, 7, 7], 2, 2⟩ : circular_buffer Nat 4) 3) ∧
    toList (popN (⟨[1, 2, 7, 7], 2, 2⟩ : circular_buffer Nat 4) 3)
        = (toList (⟨[1, 2, 7, 7], 2, 2⟩ : circular_buffer Nat 4)).drop 3 ∧
    popN (⟨[1, 2, 7, 7], 2, 0⟩ : circular_buffer Nat 4) 3 = ⟨[1, 2, 7, 7], 2, 0⟩ :=
  ⟨(c9_shift_out_count_pops_n_times (⟨[1, 2, 7, 7], 2, 2⟩ : circular_buffer Nat 4) 3).1,
    (c9_shift_out_count_pops_n_times (⟨[1, 2, 7, 7], 2, 2⟩ : circular_buffer Nat 4) 3).2.1
      (by decide),
    (c9_shift_out_count_pops_n_times (⟨[1, 2, 7, 7], 2, 0⟩ : circular_buffer Nat 4) 3).2.2
      (by decide)⟩

/-- C10: `update_head` is idempotent — after the first call the physical tail
equals `p mod Cap`, so the second call computes a wrap distance of zero and
changes nothing. -/
theorem c10_update_head_idempotent (hCap : 0 < Cap) (b : circular_buffer α Cap) (p : Nat) :
    (b.update_head p).update_head p = b.update_head p := by
  have hmod := update_head_tail_mod hCap b p
  have hsz : (b.update_head p).size_ ≤ Cap := by
    simp only [update_head]
    exact Nat.min_le_right _ _
  apply cb_ext
  · rfl
  · show (b.update_head p).tail_ + _ = (b.update_head p).tail_
    rw [hmod]
    simp
  · show min ((b.update_head p).size_ + _) Cap = (b.update_head p).size_
    rw [hmod]
    simp [Nat.min_eq_left hsz]

/-- Witness for C10 at `Capacity = 4`, buffer `⟨[0,0,0,0], 5, 2⟩`, argument 11. -/
theorem c10_witness :
    ((⟨[0, 0, 0, 0], 5, 2⟩ : circular_buffer Nat 4).update_head 11).update_head 11
      = (⟨[0, 0, 0, 0], 5, 2⟩ : circular_buffer Nat 4).update_head 11 :=
  c10_update_head_idempotent (by decide) ⟨[0, 0, 0, 0], 5, 2⟩ 11

end Claims

end Xitren
